import Mathlib

/-!
Shallow embedding of the YAJE build orchestrator (packages/cli and the
compiler module) and formal verification of its specification claims.

Conventions of the embedding:
* JavaScript strings are Lean `String`s; `String.prototype.split("-")` with a
  one-character separator becomes `List.splitOn` on the character list.
* JavaScript `Map` objects (iteration in key-insertion order, `set` on an
  existing key replacing the value in place) are embedded as association
  lists `List (String × α)` with `jsMapSet` / `jsMapGet`.
* Byte buffers are `List Nat` with every element below 256; file contents
  are provided through an explicit read function `String → Option (List Nat)`
  standing for the filesystem (`none` = the path does not exist).
* `crypto.createHash("sha256")` incrementally hashing chunks is embedded as
  accumulation of the byte stream followed by a full SHA-256 implementation
  (`sha256hex`); `hash.update` on a string uses UTF-8, embedded by
  `utf8Bytes`.
* Fallible code (`throw`) returns `Except String`.
-/

namespace YAJE

/-! ## Target triples (packages/cli/src/compiler.ts) -/

/-- Embeds the `TargetTriple` interface of `@yaje/core/builder`: all four
components are open strings (`OpenString = string & \x7b\x7d` in the source). -/
structure TargetTriple where
  arch : String
  vendor : String
  platform : String
  abi : String
  deriving DecidableEq, Repr

/-- Embeds `triple.split("-")`: JavaScript `split` with a one-character
separator, e.g. `"a--b".split("-") = ["a", "", "b"]`. -/
def splitDash (s : String) : List String :=
  (s.data.splitOn (Char.ofNat 45)).map (fun l => String.mk l)

/-- Embeds `parseTargetTriple` (compiler.ts): splits on `-`; accepts 4-, 3-
and 2-part forms (in the 3- and 2-part forms `vendor` keeps its initial value
`"unknown"`; in the 2-part form `abi` is inferred from the platform by the
`switch` statement); every other shape returns `null`. -/
def parseTargetTriple (triple : String) : Option TargetTriple :=
  match splitDash triple with
  | [arch, vendor, platform, abi] => some ⟨arch, vendor, platform, abi⟩
  | [arch, platform, abi] => some ⟨arch, "unknown", platform, abi⟩
  | [arch, platform] =>
    some ⟨arch, "unknown", platform,
      if platform = "windows" then "msvc"
      else if platform = "linux" then "gnu"
      else "system"⟩
  | _ => none

/-- Embeds `getTargetTripleString` (compiler.ts): hyphen-joined components,
omitting the abi when the platform is `darwin` and the abi is `system`. -/
def getTargetTripleString (target : TargetTriple) : String :=
  if target.platform = "darwin" ∧ target.abi = "system" then
    target.arch ++ "-" ++ target.vendor ++ "-" ++ target.platform
  else
    target.arch ++ "-" ++ target.vendor ++ "-" ++ target.platform ++ "-" ++ target.abi

/-! ## Compiler arguments (packages/cli/src/compiler.ts, generateCompilerArguments) -/

/-- Runtime value of one `defineMacros` entry, discriminated the way the
source's `typeof macroValue` switch does. Values whose `typeof` tag is not
`boolean`, `number` or `string` are represented by `other` carrying the tag. -/
inductive MacroValue where
  | bool (b : Bool)
  | num (n : Int)
  | str (s : String)
  | other (typeName : String)
  deriving DecidableEq, Repr

/-- Embeds the `switch (typeof macroValue)` serialization: a boolean gives the
bare name, a number gives `NAME=<n>`, a string gives `NAME="<s>"`, anything
else throws `Unknown macro type ...`. -/
def serializeMacroValue (macroName : String) : MacroValue → Except String String
  | .bool _ => .ok macroName
  | .num n => .ok (macroName ++ "=" ++ toString n)
  | .str s => .ok (macroName ++ "=\"" ++ s ++ "\"")
  | .other t => .error ("Unknown macro type " ++ t)

/-- Embeds the `CFGResult` interface of `@yaje/core/builder`; `defineMacros`
is a `Record`, embedded as an association list in key-insertion order (the
order `Object.entries` enumerates for non-numeric keys). -/
structure CFGResult where
  name : String
  sources : List String
  libraryLookup : List String
  includeDirs : List String
  defineMacros : List (String × MacroValue)
  loadingFunctions : List String
  cFlags : List String
  lFlags : List String
  deriving DecidableEq, Repr

/-- The pushes into the `defineMacros` accumulator performed for one
configuration: `-D` followed by the serialized macro, failing on the first
macro of unknown type (exceptions abort the whole loop in the source). -/
def macroArgsOf : List (String × MacroValue) → Except String (List String)
  | [] => .ok []
  | (n, v) :: rest =>
    match serializeMacroValue n v with
    | .error e => .error e
    | .ok s =>
      match macroArgsOf rest with
      | .error e => .error e
      | .ok more => .ok ("-D" :: s :: more)

/-- The main loop of `generateCompilerArguments`: one pass over
`dependencies.concat(module)` growing the `includeDirs` and `defineMacros`
accumulator arrays. -/
def collectArgs : List CFGResult → List String → List String →
    Except String (List String × List String)
  | [], incs, macs => .ok (incs, macs)
  | c :: rest, incs, macs =>
    match macroArgsOf c.defineMacros with
    | .error e => .error e
    | .ok macs2 =>
      collectArgs rest (incs ++ c.includeDirs.flatMap (fun d => ["-I", d])) (macs ++ macs2)

/-- Embeds `generateCompilerArguments` (compiler.ts): the `-I` pairs of all
configurations, then the `-D` pairs of all configurations, then the `-L`
pairs of the module only, then the base flags. -/
def generateCompilerArguments (dependencies : List CFGResult) (module : CFGResult)
    (flags : List String) : Except String (List String) :=
  match collectArgs (dependencies ++ [module]) [] [] with
  | .error e => .error e
  | .ok (includeDirs, defineMacros) =>
    .ok (includeDirs ++ defineMacros ++
      module.libraryLookup.flatMap (fun d => ["-L", d]) ++ flags)

/-- Specification-shaped form of the argument vector: all include options of
the configurations in order, then all macro options, then `-L` options, then
flags (grouped per option kind, as the code produces). -/
def specArgsGrouped (dependencies : List CFGResult) (module : CFGResult)
    (flags : List String) : Except String (List String) :=
  match macroArgsOf ((dependencies ++ [module]).flatMap (fun c => c.defineMacros)) with
  | .error e => .error e
  | .ok macs =>
    .ok ((dependencies ++ [module]).flatMap (fun c => c.includeDirs.flatMap (fun d => ["-I", d])) ++
      macs ++ module.libraryLookup.flatMap (fun d => ["-L", d]) ++ flags)

/-- Per-configuration argument block as the specification words it: the `-I`
options of one configuration followed by its `-D` options. -/
def perConfigArgs (c : CFGResult) : Except String (List String) :=
  match macroArgsOf c.defineMacros with
  | .error e => .error e
  | .ok macs => .ok (c.includeDirs.flatMap (fun d => ["-I", d]) ++ macs)

/-- Concatenation of the per-configuration blocks. -/
def interleavedConfigs : List CFGResult → Except String (List String)
  | [] => .ok []
  | c :: rest =>
    match perConfigArgs c with
    | .error e => .error e
    | .ok a =>
      match interleavedConfigs rest with
      | .error e => .error e
      | .ok b => .ok (a ++ b)

/-- Modelled from the specification words of claim C3: for each configuration
`d` ranging over the dependencies followed by the module, emit that
configuration's `-I` options and then its `-D` options (interleaved per
configuration), then the module's `-L` options, then the flags. -/
def specArgsInterleaved (dependencies : List CFGResult) (module : CFGResult)
    (flags : List String) : Except String (List String) :=
  match interleavedConfigs (dependencies ++ [module]) with
  | .error e => .error e
  | .ok per =>
    .ok (per ++ module.libraryLookup.flatMap (fun d => ["-L", d]) ++ flags)

/-! ## Header dependency scan (compiler.ts, getDependencies) -/

/-- Embeds `String.prototype.startsWith` on whole strings (character-list
version of the byte comparison). -/
def strStartsWith (s pat : String) : Bool :=
  pat.data.isPrefixOf s.data

/-- Embeds the argument filter at the top of `getDependencies`: keep every
element that starts with `-I` or `-D` (the element itself only), keep
`-target` together with its following element, skip empty strings (the
`if (!arg) continue` check) and drop everything else. -/
def getDependenciesArgs : List String → List String
  | [] => []
  | arg :: rest =>
    if arg = "" then getDependenciesArgs rest
    else if strStartsWith arg "-I" || strStartsWith arg "-D" then
      arg :: getDependenciesArgs rest
    else if arg = "-target" then
      match rest with
      | [] => []
      | nextArg :: rest2 => "-target" :: nextArg :: getDependenciesArgs rest2
    else getDependenciesArgs rest

/-! ## JavaScript Map embedding -/

/-- Embeds `Map.prototype.get`. -/
def jsMapGet {α : Type} (m : List (String × α)) (k : String) : Option α :=
  (m.find? (fun e => decide (e.1 = k))).map (fun e => e.2)

/-- Embeds `Map.prototype.has`. -/
def jsMapHas {α : Type} (m : List (String × α)) (k : String) : Bool :=
  m.any (fun e => decide (e.1 = k))

/-- Embeds `Map.prototype.set`: replace the value in place when the key is
present (iteration order keeps the key's first-insertion position),
otherwise append the new entry at the end. -/
def jsMapSet {α : Type} (m : List (String × α)) (k : String) (v : α) :
    List (String × α) :=
  if jsMapHas m k then
    m.map (fun e => if e.1 = k then (k, v) else e)
  else m ++ [(k, v)]

/-! ## Object naming in compileModule (compiler.ts) -/

/-- Embeds `path.basename(p, ext)` for POSIX paths: the last `/`-separated
component, with `ext` stripped when it is a proper suffix. -/
def jsBasename (p ext : String) : String :=
  let base : List Char := (p.data.splitOn (Char.ofNat 47)).getLastD []
  if ext.data.isSuffixOf base ∧ base ≠ ext.data then
    ⟨base.take (base.length - ext.data.length)⟩
  else ⟨base⟩

/-- Embeds the per-source naming loop of `compileModule`: the `nameTable`
map starts empty; for each source, look up the basename; on a hit the
counter is incremented, appended to the name, and stored under the new
(suffixed) name — exactly as the source does. -/
def objectNamesGo : List (String × Nat) → List String → List String
  | _, [] => []
  | nameTable, source :: rest =>
    let name := jsBasename source ".c"
    match jsMapGet nameTable name with
    | some index =>
      let name2 := name ++ toString (index + 1)
      name2 :: objectNamesGo (jsMapSet nameTable name2 (index + 1)) rest
    | none => name :: objectNamesGo (jsMapSet nameTable name 1) rest

/-- The object base names `compileModule` derives for a module's sources;
the object file for a source is `objectFolder/<name>.o` and the hash sidecar
is `cacheFolder/<moduleName>/<name>.hash`, so distinct names mean distinct
paths. -/
def compileModuleObjectNames (sources : List String) : List String :=
  objectNamesGo [] sources

/-! ## UTF-8 and the incremental hash (compiler.ts, calculateHash)

Node's `hash.update(string)` uses the UTF-8 encoding of the string;
`utf8EncodeCharNat` is the standard UTF-8 encoding of one code point,
written over `Nat`. -/

/-- UTF-8 encoding of one code point (as node's `Buffer`/`hash.update`
produce for well-formed strings). -/
def utf8EncodeCharNat (n : Nat) : List Nat :=
  if n < 128 then [n]
  else if n < 2048 then [192 + n / 64, 128 + n % 64]
  else if n < 65536 then [224 + n / 4096, 128 + (n / 64) % 64, 128 + n % 64]
  else [240 + n / 262144, 128 + (n / 4096) % 64, 128 + (n / 64) % 64, 128 + n % 64]

/-- UTF-8 bytes of a string. -/
def utf8Bytes (s : String) : List Nat :=
  s.data.flatMap (fun c => utf8EncodeCharNat c.toNat)

/-- Decoder for one UTF-8-encoded code point (used to prove the encoding
injective). -/
def utf8DecodeOne : List Nat → Option (Nat × List Nat)
  | [] => none
  | b0 :: rest =>
    if b0 < 128 then some (b0, rest)
    else if b0 < 224 then
      match rest with
      | b1 :: rest2 => some ((b0 - 192) * 64 + (b1 - 128), rest2)
      | _ => none
    else if b0 < 240 then
      match rest with
      | b1 :: b2 :: rest2 =>
        some ((b0 - 224) * 4096 + (b1 - 128) * 64 + (b2 - 128), rest2)
      | _ => none
    else
      match rest with
      | b1 :: b2 :: b3 :: rest2 =>
        some ((b0 - 240) * 262144 + (b1 - 128) * 4096 + (b2 - 128) * 64 + (b3 - 128), rest2)
      | _ => none

/-- Embeds `Array.prototype.join(" ")`. -/
def joinSpace : List String → String
  | [] => ""
  | [a] => a
  | a :: b :: rest => a ++ " " ++ joinSpace (b :: rest)

/-- The hyphen-less pieces before and after one argument in the joined
argument string: `joinPrefixStr` renders every earlier argument followed by
a space. -/
def joinPrefixStr : List String → String
  | [] => ""
  | a :: rest => a ++ " " ++ joinPrefixStr rest

/-- The piece of the joined argument string after one argument: a space and
the join of the remaining arguments (empty when there are none). -/
def joinSuffixStr : List String → String
  | [] => ""
  | b :: rest => " " ++ joinSpace (b :: rest)

/-! ### SHA-256 (the `crypto.createHash("sha256")` collaborator) -/

/-- Truncation to 32 bits. -/
def w32 (n : Nat) : Nat := n % 4294967296

/-- Right rotation of a 32-bit word. -/
def rotr32 (x n : Nat) : Nat := x / 2 ^ n + (x % 2 ^ n) * 2 ^ (32 - n)

/-- Bitwise complement of a 32-bit word. -/
def bitNot32 (x : Nat) : Nat := 4294967295 - x

def bigSigma0 (x : Nat) : Nat := rotr32 x 2 ^^^ rotr32 x 13 ^^^ rotr32 x 22

def bigSigma1 (x : Nat) : Nat := rotr32 x 6 ^^^ rotr32 x 11 ^^^ rotr32 x 25

def smallSigma0 (x : Nat) : Nat := rotr32 x 7 ^^^ rotr32 x 18 ^^^ x / 8

def smallSigma1 (x : Nat) : Nat := rotr32 x 17 ^^^ rotr32 x 19 ^^^ x / 1024

def chFun (e f g : Nat) : Nat := (e &&& f) ^^^ (bitNot32 e &&& g)

def majFun (a b c : Nat) : Nat := (a &&& b) ^^^ (a &&& c) ^^^ (b &&& c)

/-- The SHA-256 round constants (decimal renderings of the standard values
0x428a2f98, 0x71374491, ...). -/
def sha256K : List Nat :=
  [1116352408, 1899447441, 3049323471, 3921009573, 961987163,
   1508970993, 2453635748, 2870763221, 3624381080, 310598401,
   607225278, 1426881987, 1925078388, 2162078206, 2614888103,
   3248222580, 3835390401, 4022224774, 264347078, 604807628,
   770255983, 1249150122, 1555081692, 1996064986, 2554220882,
   2821834349, 2952996808, 3210313671, 3336571891, 3584528711,
   113926993, 338241895, 666307205, 773529912, 1294757372,
   1396182291, 1695183700, 1986661051, 2177026350, 2456956037,
   2730485921, 2820302411, 3259730800, 3345764771, 3516065817,
   3600352804, 4094571909, 275423344, 430227734, 506948616,
   659060556, 883997877, 958139571, 1322822218, 1537002063,
   1747873779, 1955562222, 2024104815, 2227730452, 2361852424,
   2428436474, 2756734187, 3204031479, 3329325298]

/-- The SHA-256 initial hash value (decimal renderings of 0x6a09e667,
0xbb67ae85, ...). -/
def sha256Init : List Nat :=
  [1779033703, 3144134277, 1013904242, 2773480762,
   1359893119, 2600822924, 528734635, 1541459225]

/-- Big-endian 64-bit byte rendering of a length in bits. -/
def be64 (n : Nat) : List Nat :=
  [n / 2 ^ 56 % 256, n / 2 ^ 48 % 256, n / 2 ^ 40 % 256, n / 2 ^ 32 % 256,
   n / 2 ^ 24 % 256, n / 2 ^ 16 % 256, n / 2 ^ 8 % 256, n % 256]

/-- SHA-256 message padding: `0x80`, zeros to 56 mod 64, then the bit
length. -/
def sha256Pad (msg : List Nat) : List Nat :=
  msg ++ 128 :: List.replicate ((119 - msg.length % 64) % 64) 0 ++ be64 (8 * msg.length)

/-- Splits the padded message into 64-byte blocks. -/
def toBlocks : List Nat → List (List Nat)
  | [] => []
  | x :: xs => (x :: xs).take 64 :: toBlocks (xs.drop 63)
  termination_by l => l.length
  decreasing_by simp [List.length_drop]; omega

/-- The sixteen 32-bit big-endian words of one block. -/
def blockWords (block : List Nat) : List Nat :=
  (List.range 16).map (fun i =>
    block.getD (4 * i) 0 * 16777216 + block.getD (4 * i + 1) 0 * 65536 +
      block.getD (4 * i + 2) 0 * 256 + block.getD (4 * i + 3) 0)

/-- Message-schedule extension: appends the next scheduled word `n` times. -/
def extendSchedule : Nat → Array Nat → Array Nat
  | 0, w => w
  | n + 1, w =>
    let i := w.size
    extendSchedule n (w.push (w32 (smallSigma1 (w.getD (i - 2) 0) + w.getD (i - 7) 0 +
      smallSigma0 (w.getD (i - 15) 0) + w.getD (i - 16) 0)))

/-- The 64 compression rounds over the zipped constants and schedule. -/
def sha256Rounds : List (Nat × Nat) →
    Nat × Nat × Nat × Nat × Nat × Nat × Nat × Nat →
    Nat × Nat × Nat × Nat × Nat × Nat × Nat × Nat
  | [], st => st
  | (k, wi) :: rest, (a, b, c, d, e, f, g, h) =>
    let t1 := w32 (h + bigSigma1 e + chFun e f g + k + wi)
    let t2 := w32 (bigSigma0 a + majFun a b c)
    sha256Rounds rest (w32 (t1 + t2), a, b, c, w32 (d + t1), e, f, g)

/-- One SHA-256 block compression. -/
def compressBlock (h : List Nat) (block : List Nat) : List Nat :=
  let w := extendSchedule 48 (Array.mk (blockWords block))
  match h with
  | [a0, b0, c0, d0, e0, f0, g0, h0] =>
    match sha256Rounds (sha256K.zip w.toList) (a0, b0, c0, d0, e0, f0, g0, h0) with
    | (a, b, c, d, e, f, g, hh) =>
      [w32 (a0 + a), w32 (b0 + b), w32 (c0 + c), w32 (d0 + d),
       w32 (e0 + e), w32 (f0 + f), w32 (g0 + g), w32 (h0 + hh)]
  | _ => h

/-- The eight 32-bit words of the SHA-256 digest of a byte list. -/
def sha256Words (msg : List Nat) : List Nat :=
  (toBlocks (sha256Pad msg)).foldl compressBlock sha256Init

/-- A lowercase hexadecimal digit. -/
def hexDigit (n : Nat) : Char :=
  Char.ofNat (if n < 10 then 48 + n else 87 + n)

/-- Lowercase hexadecimal rendering of one 32-bit word (8 digits). -/
def hexWord32 (w : Nat) : List Char :=
  (List.range 8).map (fun i => hexDigit (w / 16 ^ (7 - i) % 16))

/-- Lowercase hexadecimal SHA-256 digest of a byte list — the embedding of
`crypto.createHash("sha256") ... .digest("hex")` applied to the accumulated
update stream. -/
def sha256hex (msg : List Nat) : String :=
  ⟨(sha256Words msg).flatMap hexWord32⟩

/-! ### calculateHash (compiler.ts) -/

/-- Embeds `calculateHash`: update the hash with `args.join(" ")`, stream the
source file (a missing source rejects the whole computation), then stream
each dependency that exists, skipping the ones that do not; digest as
lowercase hex. The byte stream fed to SHA-256 is accumulated explicitly. -/
def calculateHash (fsRead : String → Option (List Nat)) (source : String)
    (dependencies : List String) (args : List String) : Option String :=
  match fsRead source with
  | none => none
  | some sourceBytes =>
    let afterSource := utf8Bytes (joinSpace args) ++ sourceBytes
    let final := dependencies.foldl
      (fun acc dep =>
        match fsRead dep with
        | some b => acc ++ b
        | none => acc) afterSource
    some (sha256hex final)

/-- The byte string fed to SHA-256 by `calculateHash`, as a function of the
argument vector, the source bytes and the bytes of the existing
dependencies. -/
def encodeBytes (args : List String) (sourceBytes : List Nat)
    (depBytes : List (List Nat)) : List Nat :=
  utf8Bytes (joinSpace args) ++ sourceBytes ++ depBytes.flatten

/-! ## Bundle embedding (compiler.ts, embedFile) -/

/-- Embeds JavaScript `Number.prototype.toString(16)` for naturals: minimal
lowercase hexadecimal digits. -/
def natToHex (n : Nat) : String :=
  ⟨Nat.toDigits 16 n⟩

/-- Embeds `String.prototype.padStart(2, "0")`. -/
def padStart2 (s : String) : String :=
  ⟨List.replicate (2 - s.data.length) (Char.ofNat 48) ++ s.data⟩

/-- One initializer item for a content byte: `0x` followed by the padded
hexadecimal value. -/
def hexByteLit (b : Nat) : String :=
  "0x" ++ padStart2 (natToHex b)

/-- The data-initializer text produced by the byte loop of `embedFile`: for
each byte, `0x`, the two-digit lowercase hex value and a comma. -/
def dataInitializer (content : List Nat) : String :=
  content.foldl (fun acc b => acc ++ "0x" ++ padStart2 (natToHex b) ++ ",") ""

/-- Embeds the C source piped to the compiler by `embedFile`, following the
sequence of `stdin.write` calls: the length constant (the content length,
not counting the sentinel), the data array opening, the byte loop, the
`0x00` sentinel and the closing. -/
def embedFileSource (content : List Nat) (pfx : String) : String :=
  "size_t " ++ pfx ++ "_LENGTH = " ++ toString content.length ++ ";\n\n" ++
  "unsigned char " ++ pfx ++ "_DATA[] = \x7b" ++
  dataInitializer content ++ "0x00" ++ "\x7d;"

/-- Comma-separated rendering of initializer items (the shape the
specification describes for the array initializer). -/
def commaSeparated : List String → String
  | [] => ""
  | [x] => x
  | x :: y :: rest => x ++ "," ++ commaSeparated (y :: rest)

/-- Recursive worker used only in proofs: the byte loop's output as a plain
concatenation. -/
def hexLits : List Nat → String
  | [] => ""
  | b :: rest => hexByteLit b ++ "," ++ hexLits rest

/-- Value of one hexadecimal digit character. -/
def hexCharVal (c : Char) : Option Nat :=
  if 48 ≤ c.toNat ∧ c.toNat ≤ 57 then some (c.toNat - 48)
  else if 97 ≤ c.toNat ∧ c.toNat ≤ 102 then some (c.toNat - 87)
  else none

/-- Decodes a C hexadecimal literal of the form `0x...` back to its value
(used to state that the initializer lists exactly the content bytes). -/
def decodeHexLit (s : String) : Option Nat :=
  match s.data with
  | c0 :: c1 :: rest =>
    if c0 = Char.ofNat 48 ∧ c1 = Char.ofNat 120 then
      rest.foldl
        (fun acc c =>
          match acc, hexCharVal c with
          | some a, some v => some (a * 16 + v)
          | _, _ => none) (some 0)
    else none
  | _ => none

/-! ## Package collection (packages/cli/src/package.ts) -/

/-- Embeds the `PackageJSON` interface: name, optional entry point, optional
dependency record (an association list in key order) and the
`yaje.bundler` flag (`json.yaje?.bundler ?? false`). -/
structure PackageJSON where
  name : String
  main : Option String
  dependencies : Option (List (String × String))
  bundler : Bool
  deriving DecidableEq, Repr

/-- Embeds `TrackedPackage | NativeTrackedPackage`: the native variant is the
one whose `instructions` field is present. -/
structure TrackedPackage where
  packageJSON : PackageJSON
  packageFolder : List String
  instructions : Option CFGResult
  isBundler : Bool
  deriving DecidableEq, Repr

/-- Embeds `PackageCollection`: a JavaScript `Map` from package name to
tracked package, iterated in key-insertion order. -/
abbrev PackageCollection := List (String × TrackedPackage)

/-- Embeds `PackageCollection.set`: keyed by `pkg.packageJSON.name`. -/
def pcSet (ps : PackageCollection) (pkg : TrackedPackage) : PackageCollection :=
  jsMapSet ps pkg.packageJSON.name pkg

/-- Embeds `PackageCollection.has`. -/
def pcHas (ps : PackageCollection) (name : String) : Bool :=
  jsMapHas ps name

/-- Embeds `PackageCollection.get` (null becomes `none`). -/
def pcGet (ps : PackageCollection) (name : String) : Option TrackedPackage :=
  jsMapGet ps name

/-! ## Package discovery (packages/cli/src/bin/build.ts) -/

/-- The filesystem and script-evaluation collaborators of discovery.
Directories are lists of path components. `manifest` stands for reading and
JSON-parsing `<dir>/package.json` (`none` = missing or unparseable);
`buildInstructions` stands for `builder.loadBuildInstructions` — the
dynamic import and evaluation of `yaje.build.js`/`yaje.build.mjs`, which is
user-script execution and is abstracted to its produced `CFGResult`
(`none` = no build file); `isDir` stands for
`fs.existsSync && statSync(...).isDirectory()`. -/
structure DiscoveryEnv where
  manifest : List String → Option PackageJSON
  buildInstructions : List String → Option CFGResult
  isDir : List String → Bool

/-- Worker for `resolvePackageDir` with explicit fuel (one step per parent
directory; `resolvePackageDir` supplies enough fuel for the whole walk, so
the out-of-fuel case is unreachable). -/
def resolvePackageDirAux (env : DiscoveryEnv) (name : String) :
    Nat → List String → Option (List String)
  | 0, _ => none
  | fuel + 1, dir =>
    if env.isDir (dir ++ ["node_modules", name]) then
      some (dir ++ ["node_modules", name])
    else
      match dir with
      | [] => none
      | x :: xs => resolvePackageDirAux env name fuel (x :: xs).dropLast

/-- Embeds `resolvePackageDir` (build.ts): starting at `fromDir`, probe
`<dir>/node_modules/<name>`, walking to the parent directory until the walk
cannot go further, then fail (the source throws; the embedding returns
`none`). The `root` parameter is unused, as in the source. -/
def resolvePackageDir (env : DiscoveryEnv) (name : String) (root : List String)
    (fromDir : List String) : Option (List String) :=
  resolvePackageDirAux env name (fromDir.length + 1) fromDir

/-- The two `packages.set` calls of `checkPackageJSON`: insert the non-native
record, then replace it with a native record when the build-configuration
script produced instructions. -/
def registerPackage (env : DiscoveryEnv) (dir : List String) (json : PackageJSON)
    (packages : PackageCollection) : PackageCollection :=
  let ps := pcSet packages ⟨json, dir, none, json.bundler⟩
  match env.buildInstructions dir with
  | some instructions => pcSet ps ⟨json, dir, some instructions, json.bundler⟩
  | none => ps

/-- Embeds the early-return test
`!json.dependencies || !("@yaje/core" in json.dependencies)`: recursion into
dependencies happens only when `@yaje/core` is a key of the manifest's
(direct) dependency record. -/
def hasCoreDep (json : PackageJSON) : Bool :=
  match json.dependencies with
  | none => false
  | some deps => deps.any (fun e => decide (e.1 = "@yaje/core"))

/-- The dependency names of a manifest, in record order
(`Object.keys(json.dependencies)`). -/
def depNames (json : PackageJSON) : List String :=
  match json.dependencies with
  | none => []
  | some deps => deps.map (fun e => e.1)

/-- The dependency loop of `checkPackageJSON`: for each name, skip it when it
is already tracked, otherwise resolve its directory (failing when that
fails) and recurse through the supplied continuation. -/
def processDeps (env : DiscoveryEnv) (root dir : List String)
    (recurse : List String → PackageCollection →
      Except String (String × PackageCollection)) :
    List String → PackageCollection → Except String PackageCollection
  | [], ps => .ok ps
  | n :: rest, ps =>
    if pcHas ps n then processDeps env root dir recurse rest ps
    else
      match resolvePackageDir env n root dir with
      | none => .error ("Could not locate package " ++ n)
      | some depDir =>
        match recurse depDir ps with
        | .error e => .error e
        | .ok (_, ps2) => processDeps env root dir recurse rest ps2

/-- Embeds `checkPackageJSON` (build.ts), with fuel making the recursion
through the dependency graph explicit (the source terminates through the
name-based deduplication; every claim is settled at a concrete fuel): read
and parse the manifest (failing when impossible), register the package
(replacing the record with a native one when build instructions exist),
return immediately when `@yaje/core` is not among the direct dependencies,
otherwise walk the dependency names. Returns the package name. -/
def checkPackageJSON (env : DiscoveryEnv) :
    Nat → List String → List String → PackageCollection →
    Except String (String × PackageCollection)
  | 0, _, _, _ => .error "Recursion limit reached"
  | fuel + 1, root, dir, packages =>
    match env.manifest dir with
    | none => .error "Directory contains no readable package.json"
    | some json =>
      let packages2 := registerPackage env dir json packages
      if hasCoreDep json then
        match processDeps env root dir
            (fun d ps => checkPackageJSON env fuel root d ps)
            (depNames json) packages2 with
        | .error e => .error e
        | .ok ps => .ok (json.name, ps)
      else .ok (json.name, packages2)

/-! ## Supporting lemmas about splitting on hyphens -/

theorem dash_data : "-".data = [Char.ofNat 45] := rfl

theorem splitOn_dash_cons (xs rest : List Char) (h : Char.ofNat 45 ∉ xs) :
    (xs ++ Char.ofNat 45 :: rest).splitOn (Char.ofNat 45) =
      xs :: rest.splitOn (Char.ofNat 45) := by
  unfold List.splitOn
  refine List.splitOnP_first _ _ ?_ _ (by simp) _
  intro x hx
  simp only [beq_iff_eq]
  exact fun hEq => h (hEq ▸ hx)

theorem splitOn_dash_single (xs : List Char) (h : Char.ofNat 45 ∉ xs) :
    xs.splitOn (Char.ofNat 45) = [xs] := by
  unfold List.splitOn
  refine List.splitOnP_eq_single _ _ ?_
  intro x hx
  simp only [beq_iff_eq]
  exact fun hEq => h (hEq ▸ hx)

theorem splitDash_three (a v p : String)
    (ha : Char.ofNat 45 ∉ a.data) (hv : Char.ofNat 45 ∉ v.data)
    (hp : Char.ofNat 45 ∉ p.data) :
    splitDash (a ++ "-" ++ v ++ "-" ++ p) = [a, v, p] := by
  have hdata : (a ++ "-" ++ v ++ "-" ++ p).data
      = a.data ++ Char.ofNat 45 :: (v.data ++ Char.ofNat 45 :: p.data) := by
    simp [String.data_append, dash_data]
  unfold splitDash
  rw [hdata, splitOn_dash_cons _ _ ha, splitOn_dash_cons _ _ hv,
    splitOn_dash_single _ hp]
  rfl

theorem splitDash_four (a v p b : String)
    (ha : Char.ofNat 45 ∉ a.data) (hv : Char.ofNat 45 ∉ v.data)
    (hp : Char.ofNat 45 ∉ p.data) (hb : Char.ofNat 45 ∉ b.data) :
    splitDash (a ++ "-" ++ v ++ "-" ++ p ++ "-" ++ b) = [a, v, p, b] := by
  have hdata : (a ++ "-" ++ v ++ "-" ++ p ++ "-" ++ b).data
      = a.data ++ Char.ofNat 45 ::
        (v.data ++ Char.ofNat 45 :: (p.data ++ Char.ofNat 45 :: b.data)) := by
    simp [String.data_append, dash_data]
  unfold splitDash
  rw [hdata, splitOn_dash_cons _ _ ha, splitOn_dash_cons _ _ hv,
    splitOn_dash_cons _ _ hp, splitOn_dash_single _ hb]
  rfl

/-! ## Claim C9 -/

/-- C9: `parseTargetTriple` returns `null` for every 1-part input and a
non-null triple for every 2-, 3- or 4-part input; the vendor defaults to
`"unknown"` in the 2- and 3-part forms, and in the 2-part form the abi is
inferred from the platform (windows gives msvc, linux gives gnu, anything
else gives system). -/
theorem parseTargetTriple_arity (s : String) :
    (∀ x, splitDash s = [x] → parseTargetTriple s = none) ∧
    (∀ a p, splitDash s = [a, p] → parseTargetTriple s =
      some ⟨a, "unknown", p,
        if p = "windows" then "msvc"
        else if p = "linux" then "gnu" else "system"⟩) ∧
    (∀ a p b, splitDash s = [a, p, b] →
      parseTargetTriple s = some ⟨a, "unknown", p, b⟩) ∧
    (∀ a v p b, splitDash s = [a, v, p, b] →
      parseTargetTriple s = some ⟨a, v, p, b⟩) := by
  refine ⟨fun x h => ?_, fun a p h => ?_, fun a p b h => ?_, fun a v p b h => ?_⟩ <;>
    simp [parseTargetTriple, h]

/-- Witness for C9 at concrete inputs of every arity. -/
theorem parseTargetTriple_arity_check :
    parseTargetTriple "aarch64" = none ∧
    parseTargetTriple "aarch64-darwin" =
      some ⟨"aarch64", "unknown", "darwin", "system"⟩ ∧
    parseTargetTriple "x86_64-windows" =
      some ⟨"x86_64", "unknown", "windows", "msvc"⟩ ∧
    parseTargetTriple "x86_64-linux" =
      some ⟨"x86_64", "unknown", "linux", "gnu"⟩ ∧
    parseTargetTriple "x86_64-linux-gnu" =
      some ⟨"x86_64", "unknown", "linux", "gnu"⟩ ∧
    parseTargetTriple "x86_64-pc-windows-msvc" =
      some ⟨"x86_64", "pc", "windows", "msvc"⟩ := by
  refine ⟨(parseTargetTriple_arity _).1 "aarch64" (by decide), ?_, ?_, ?_, ?_, ?_⟩
  · simpa using (parseTargetTriple_arity _).2.1 "aarch64" "darwin" (by decide)
  · simpa using (parseTargetTriple_arity _).2.1 "x86_64" "windows" (by decide)
  · simpa using (parseTargetTriple_arity _).2.1 "x86_64" "linux" (by decide)
  · exact (parseTargetTriple_arity _).2.2.1 "x86_64" "linux" "gnu" (by decide)
  · exact (parseTargetTriple_arity _).2.2.2 "x86_64" "pc" "windows" "msvc" (by decide)

/-! ## Claim C8 -/

/-- C8 counterexample: for the darwin/system triple the rendered string has
three parts `arch-vendor-darwin`, and the 3-part parse reads them as
`[arch, platform, abi]`, so parsing yields abi `"darwin"` (and platform
`"unknown"`), not abi `"system"` as claimed. -/
theorem parse_render_darwin_counterexample :
    parseTargetTriple
        (getTargetTripleString ⟨"aarch64", "unknown", "darwin", "system"⟩) =
      some ⟨"aarch64", "unknown", "unknown", "darwin"⟩ ∧
    (⟨"aarch64", "unknown", "unknown", "darwin"⟩ : TargetTriple) ≠
      ⟨"aarch64", "unknown", "darwin", "system"⟩ := by
  constructor
  · decide
  · decide

/-- C8 (amended): for hyphen-free triples that are not darwin/system (in
particular all triples whose abi is non-default), render-then-parse is the
identity; for darwin/system triples render-then-parse yields
`⟨arch, "unknown", vendor, "darwin"⟩` (the 3-part rendering is re-read as
`arch-platform-abi`); parse-then-render is the identity on hyphen-free
4-part strings that are not of the `*-*-darwin-system` form. -/
theorem parse_render_roundTrip :
    (∀ T : TargetTriple,
      Char.ofNat 45 ∉ T.arch.data → Char.ofNat 45 ∉ T.vendor.data →
      Char.ofNat 45 ∉ T.platform.data → Char.ofNat 45 ∉ T.abi.data →
      ¬(T.platform = "darwin" ∧ T.abi = "system") →
      parseTargetTriple (getTargetTripleString T) = some T) ∧
    (∀ T : TargetTriple,
      Char.ofNat 45 ∉ T.arch.data → Char.ofNat 45 ∉ T.vendor.data →
      T.platform = "darwin" → T.abi = "system" →
      parseTargetTriple (getTargetTripleString T) =
        some ⟨T.arch, "unknown", T.vendor, "darwin"⟩) ∧
    (∀ a v p b : String,
      Char.ofNat 45 ∉ a.data → Char.ofNat 45 ∉ v.data →
      Char.ofNat 45 ∉ p.data → Char.ofNat 45 ∉ b.data →
      ¬(p = "darwin" ∧ b = "system") →
      (parseTargetTriple (a ++ "-" ++ v ++ "-" ++ p ++ "-" ++ b)).map
          getTargetTripleString =
        some (a ++ "-" ++ v ++ "-" ++ p ++ "-" ++ b)) := by
  refine ⟨fun T ha hv hp hb hds => ?_, fun T ha hv hp hb => ?_,
    fun a v p b ha hv hp hb hds => ?_⟩
  · rw [getTargetTripleString, if_neg hds, parseTargetTriple,
      splitDash_four _ _ _ _ ha hv hp hb]
  · unfold getTargetTripleString
    rw [if_pos ⟨hp, hb⟩, hp, parseTargetTriple,
      splitDash_three _ _ _ ha hv (by decide)]
  · rw [parseTargetTriple, splitDash_four _ _ _ _ ha hv hp hb]
    simp [getTargetTripleString, hds]

/-- Witness for C8 (amended) at concrete triples and strings. -/
theorem parse_render_roundTrip_check :
    parseTargetTriple (getTargetTripleString ⟨"x86_64", "pc", "windows", "gnu"⟩) =
      some ⟨"x86_64", "pc", "windows", "gnu"⟩ ∧
    parseTargetTriple (getTargetTripleString ⟨"aarch64", "unknown", "darwin", "system"⟩) =
      some ⟨"aarch64", "unknown", "unknown", "darwin"⟩ ∧
    (parseTargetTriple ("x86_64" ++ "-" ++ "pc" ++ "-" ++ "linux" ++ "-" ++ "musl")).map
        getTargetTripleString =
      some ("x86_64" ++ "-" ++ "pc" ++ "-" ++ "linux" ++ "-" ++ "musl") :=
  ⟨parse_render_roundTrip.1 ⟨"x86_64", "pc", "windows", "gnu"⟩
      (by decide) (by decide) (by decide) (by decide) (by decide),
    parse_render_roundTrip.2.1 ⟨"aarch64", "unknown", "darwin", "system"⟩
      (by decide) (by decide) (by decide) (by decide),
    parse_render_roundTrip.2.2 "x86_64" "pc" "linux" "musl"
      (by decide) (by decide) (by decide) (by decide) (by decide)⟩

/-! ## Claim C1 -/

/-- C1 (code bug): `generateCompilerArguments` emits `-I`, `-D` and `-target`
with their values as separate array elements, but the filter in
`getDependencies` keeps only elements that themselves start with `-I` or
`-D`; the value elements (include directory, macro definition) do not, so
they are dropped, and only `-target` keeps its value. The dependency-only
compiler invocation therefore does not receive the include directories and
macro definitions the claim (and the specification) require. -/
theorem getDependenciesArgs_drops_values :
    generateCompilerArguments []
        ⟨"m", [], [], ["/inc"], [("FOO", .num 1)], [], [], []⟩
        ["-target", "x86_64-unknown-linux-gnu", "-c"] =
      .ok ["-I", "/inc", "-D", "FOO=1", "-target", "x86_64-unknown-linux-gnu", "-c"] ∧
    getDependenciesArgs
        ["-I", "/inc", "-D", "FOO=1", "-target", "x86_64-unknown-linux-gnu", "-c"] =
      ["-I", "-D", "-target", "x86_64-unknown-linux-gnu"] := by
  constructor
  · rfl
  · rfl

/-! ## Claim C2 -/

/-- C2 (code bug): the disambiguation loop in `compileModule` stores the
incremented counter under the suffixed name instead of the base name, so the
counter for the base name stays at 1 and a third source with the same
basename receives the same object name as the second; three sources named
`foo.c` yield object names `foo`, `foo2`, `foo2` — not pairwise distinct. -/
theorem compileModuleObjectNames_collision :
    compileModuleObjectNames ["a/foo.c", "b/foo.c", "c/foo.c"] =
      ["foo", "foo2", "foo2"] ∧
    ¬ (["foo", "foo2", "foo2"] : List String).Nodup := by
  constructor
  · rfl
  · decide

/-! ## Claim C3 -/

/-- C3 counterexample: with a dependency contributing only a macro and a
module contributing only an include directory, the code produces
`["-I", "/i", "-D", "M"]` (all includes first, then all macros), while the
claim's per-configuration interleaving produces `["-D", "M", "-I", "/i"]`. -/
theorem generateCompilerArguments_not_interleaved :
    generateCompilerArguments [⟨"d", [], [], [], [("M", .bool true)], [], [], []⟩]
        ⟨"m", [], [], ["/i"], [], [], [], []⟩ [] =
      .ok ["-I", "/i", "-D", "M"] ∧
    specArgsInterleaved [⟨"d", [], [], [], [("M", .bool true)], [], [], []⟩]
        ⟨"m", [], [], ["/i"], [], [], [], []⟩ [] =
      .ok ["-D", "M", "-I", "/i"] ∧
    (["-I", "/i", "-D", "M"] : List String) ≠ ["-D", "M", "-I", "/i"] := by
  refine ⟨rfl, rfl, by decide⟩

theorem macroArgsOf_append (l1 l2 : List (String × MacroValue)) :
    macroArgsOf (l1 ++ l2) =
      match macroArgsOf l1 with
      | .error e => .error e
      | .ok m1 =>
        match macroArgsOf l2 with
        | .error e => .error e
        | .ok m2 => .ok (m1 ++ m2) := by
  induction l1 with
  | nil => cases h : macroArgsOf l2 <;> simp [macroArgsOf, h]
  | cons nv rest ih =>
    obtain ⟨n, v⟩ := nv
    simp only [List.cons_append, macroArgsOf]
    cases hs : serializeMacroValue n v <;>
      cases h1 : macroArgsOf rest <;>
        cases h2 : macroArgsOf l2 <;> simp [ih, h1, h2]

theorem collectArgs_eq (cfgs : List CFGResult) (incs macs : List String) :
    collectArgs cfgs incs macs =
      match macroArgsOf (cfgs.flatMap (fun c => c.defineMacros)) with
      | .error e => .error e
      | .ok m =>
        .ok (incs ++ cfgs.flatMap (fun c => c.includeDirs.flatMap (fun d => ["-I", d])),
          macs ++ m) := by
  induction cfgs generalizing incs macs with
  | nil => simp [collectArgs, macroArgsOf]
  | cons c rest ih =>
    simp only [collectArgs, List.flatMap_cons, macroArgsOf_append]
    cases h1 : macroArgsOf c.defineMacros <;>
      cases h2 : macroArgsOf (rest.flatMap (fun c => c.defineMacros)) <;>
        simp [ih, h2, List.append_assoc]

/-- C3 (amended): `generateCompilerArguments(D, M, F)` is the vector that
emits all `-I <dir>` options of the configurations of `D` followed by `M`
(in their enumeration order), then all `-D <macro>` options of those
configurations in order — serialized as `NAME` for a boolean, `NAME=<n>` for
a number, `NAME="<s>"` for a string, any other value type failing — then
`-L <dir>` for the module's `libraryLookup` entries only, then `F`. The two
option kinds are grouped globally, not interleaved per configuration; with
`D` empty the result still contains every `-I` and `-D` of `M` in their
defined enumeration order. -/
theorem generateCompilerArguments_grouped (D : List CFGResult) (M : CFGResult)
    (F : List String) :
    generateCompilerArguments D M F = specArgsGrouped D M F := by
  unfold generateCompilerArguments specArgsGrouped
  rw [collectArgs_eq]
  cases h : macroArgsOf ((D ++ [M]).flatMap (fun c => c.defineMacros)) <;> simp

/-! ## Supporting lemmas for the hash claims -/

theorem foldl_read_append (fsRead : String → Option (List Nat))
    (deps : List String) (acc : List Nat) :
    deps.foldl
        (fun acc dep =>
          match fsRead dep with
          | some b => acc ++ b
          | none => acc) acc
      = acc ++ (deps.filterMap fsRead).flatten := by
  induction deps generalizing acc with
  | nil => simp
  | cons d rest ih =>
    cases h : fsRead d <;>
      simp [List.foldl_cons, h, ih, List.filterMap_cons, List.append_assoc]

theorem utf8EncodeCharNat_ne_nil (n : Nat) : utf8EncodeCharNat n ≠ [] := by
  unfold utf8EncodeCharNat
  split_ifs <;> simp

theorem utf8DecodeOne_encode (n : Nat) (hn : n < 1114112) (r : List Nat) :
    utf8DecodeOne (utf8EncodeCharNat n ++ r) = some (n, r) := by
  unfold utf8EncodeCharNat
  split_ifs with h1 h2 h3
  · simp [utf8DecodeOne, h1]
  · simp only [List.cons_append, List.nil_append, utf8DecodeOne]
    rw [if_neg (by omega), if_pos (by omega)]
    simp only [Option.some.injEq, Prod.mk.injEq]
    exact ⟨by omega, trivial⟩
  · simp only [List.cons_append, List.nil_append, utf8DecodeOne]
    rw [if_neg (by omega), if_neg (by omega), if_pos (by omega)]
    simp only [Option.some.injEq, Prod.mk.injEq]
    exact ⟨by omega, trivial⟩
  · simp only [List.cons_append, List.nil_append, utf8DecodeOne]
    rw [if_neg (by omega), if_neg (by omega), if_neg (by omega)]
    simp only [Option.some.injEq, Prod.mk.injEq]
    exact ⟨by omega, trivial⟩

theorem utf8EncodeCharNat_cancel (a b : Nat) (r1 r2 : List Nat)
    (ha : a < 1114112) (hb : b < 1114112)
    (h : utf8EncodeCharNat a ++ r1 = utf8EncodeCharNat b ++ r2) :
    a = b ∧ r1 = r2 := by
  have d1 := utf8DecodeOne_encode a ha r1
  rw [h, utf8DecodeOne_encode b hb r2] at d1
  simp only [Option.some.injEq, Prod.mk.injEq] at d1
  exact ⟨d1.1.symm, d1.2.symm⟩

theorem char_toNat_lt (c : Char) : c.toNat < 1114112 := by
  have h : c.val.toNat.isValidChar := c.valid
  unfold Nat.isValidChar at h
  rcases h with h | ⟨h1, h2⟩
  · exact Nat.lt_trans h (by norm_num)
  · exact h2

theorem utf8ListInj : ∀ l1 l2 : List Char,
    l1.flatMap (fun c => utf8EncodeCharNat c.toNat) =
      l2.flatMap (fun c => utf8EncodeCharNat c.toNat) → l1 = l2 := by
  intro l1
  induction l1 with
  | nil =>
    intro l2 h
    cases l2 with
    | nil => rfl
    | cons b t =>
      exfalso
      simp only [List.flatMap_nil, List.flatMap_cons] at h
      exact utf8EncodeCharNat_ne_nil b.toNat (List.append_eq_nil.mp h.symm).1
  | cons a t1 ih =>
    intro l2 h
    cases l2 with
    | nil =>
      exfalso
      simp only [List.flatMap_nil, List.flatMap_cons] at h
      exact utf8EncodeCharNat_ne_nil a.toNat (List.append_eq_nil.mp h).1
    | cons b t2 =>
      simp only [List.flatMap_cons] at h
      obtain ⟨hab, hrest⟩ :=
        utf8EncodeCharNat_cancel _ _ _ _ (char_toNat_lt a) (char_toNat_lt b) h
      have hv : a = b := by
        apply Char.ext
        exact UInt32.ext hab
      rw [hv, ih t2 hrest]

theorem utf8Bytes_inj (s t : String) (h : utf8Bytes s = utf8Bytes t) : s = t := by
  cases s with
  | mk d1 =>
    cases t with
    | mk d2 => exact congrArg String.mk (utf8ListInj d1 d2 h)

theorem utf8Bytes_append (s t : String) :
    utf8Bytes (s ++ t) = utf8Bytes s ++ utf8Bytes t := by
  simp [utf8Bytes, String.data_append]

theorem utf8_joinSpace_split (a1 : List String) (x : String) (a2 : List String) :
    utf8Bytes (joinSpace (a1 ++ x :: a2)) =
      utf8Bytes (joinPrefixStr a1) ++ (utf8Bytes x ++ utf8Bytes (joinSuffixStr a2)) := by
  induction a1 with
  | nil =>
    cases a2 with
    | nil => simp [joinSpace, joinPrefixStr, joinSuffixStr, utf8Bytes]
    | cons b rest =>
      show utf8Bytes (joinSpace (x :: b :: rest)) = _
      rw [joinSpace, utf8Bytes_append]
      simp [joinPrefixStr, joinSuffixStr, utf8Bytes_append, utf8Bytes,
        List.append_assoc]
  | cons a t ih =>
    obtain ⟨c, cs, ht⟩ : ∃ c cs, t ++ x :: a2 = c :: cs := by
      cases h : t ++ x :: a2 with
      | nil => exact absurd (List.append_eq_nil.mp h).2 (by simp)
      | cons c cs => exact ⟨c, cs, rfl⟩
    have h1 : joinSpace ((a :: t) ++ x :: a2) = a ++ " " ++ joinSpace (t ++ x :: a2) := by
      rw [List.cons_append, ht, joinSpace, ← ht]
    rw [h1, utf8Bytes_append, utf8Bytes_append, ih]
    show _ = utf8Bytes (a ++ " " ++ joinPrefixStr t) ++ _
    rw [utf8Bytes_append, utf8Bytes_append]
    simp [List.append_assoc]

/-! ## Claim C4 -/

/-- C4: `calculateHash(source, deps, args)` succeeds exactly when the source
file exists, and then returns the hexadecimal SHA-256 digest (`sha256hex`
serializes in lowercase — second conjunct) of the concatenation, in order,
of the UTF-8 bytes of `args.join(" ")`, the source bytes, and the bytes of
each dependency that exists, in list order; missing dependencies are skipped
and never cause a failure (the equation holds for every dependency list and
every filesystem). -/
theorem calculateHash_spec :
    (∀ (fsRead : String → Option (List Nat)) (source : String)
        (dependencies : List String) (args : List String),
      calculateHash fsRead source dependencies args =
        (fsRead source).map (fun sourceBytes =>
          sha256hex (encodeBytes args sourceBytes (dependencies.filterMap fsRead)))) ∧
    (∀ msg : List Nat,
      (sha256hex msg).data.all
        (fun c => decide (c ∈ ("0123456789abcdef").data)) = true) := by
  constructor
  · intro fsRead source dependencies args
    unfold calculateHash encodeBytes
    cases h : fsRead source with
    | none => simp
    | some sourceBytes =>
      simp only [Option.map_some]
      rw [foldl_read_append]
      simp [List.append_assoc]
  · intro msg
    have hdigit : ∀ k, k < 16 →
        (decide (hexDigit k ∈ ("0123456789abcdef").data)) = true := by decide
    simp only [sha256hex, List.all_eq_true]
    intro c hc
    rw [List.mem_flatMap] at hc
    obtain ⟨w, _, hcw⟩ := hc
    rw [hexWord32, List.mem_map] at hcw
    obtain ⟨i, _, hci⟩ := hcw
    rw [← hci]
    exact hdigit _ (Nat.mod_lt _ (by norm_num))

/-! ## Claim C5 -/

/-- C5 counterexample: the encoding of the triple (argument vector, source
bytes, dependency bytes) is not injective — `args.join(" ")` identifies the
vectors `["a b"]` and `["a", "b"]`, which produce the same byte string. -/
theorem encodeBytes_not_injective :
    encodeBytes ["a b"] [] [] = encodeBytes ["a", "b"] [] [] ∧
    (["a b"] : List String) ≠ ["a", "b"] := by
  constructor
  · rfl
  · decide

/-- C5 (amended): the encoding fed to SHA-256 is injective in each
coordinate separately — with the argument vector and dependency bytes fixed,
it determines the source bytes; with everything else fixed it determines the
bytes of any one dependency; and with the other argument elements fixed it
determines any one argument element. (Joint injectivity of the triple fails,
see the counterexample, because `args.join(" ")` and the unseparated
concatenation erase the boundaries.) -/
theorem encodeBytes_inj_per_coordinate :
    (∀ (args : List String) (d : List (List Nat)) (s1 s2 : List Nat),
      encodeBytes args s1 d = encodeBytes args s2 d → s1 = s2) ∧
    (∀ (args : List String) (s : List Nat) (d1 d2 : List (List Nat))
        (x y : List Nat),
      encodeBytes args s (d1 ++ x :: d2) = encodeBytes args s (d1 ++ y :: d2) →
        x = y) ∧
    (∀ (a1 a2 : List String) (s : List Nat) (d : List (List Nat)) (x y : String),
      encodeBytes (a1 ++ x :: a2) s d = encodeBytes (a1 ++ y :: a2) s d →
        x = y) := by
  refine ⟨fun args d s1 s2 h => ?_, fun args s d1 d2 x y h => ?_,
    fun a1 a2 s d x y h => ?_⟩
  · unfold encodeBytes at h
    simp only [List.append_assoc] at h
    have h2 := List.append_cancel_left h
    exact List.append_cancel_right h2
  · unfold encodeBytes at h
    simp only [List.flatten_append, List.flatten_cons, List.append_assoc] at h
    have h2 := List.append_cancel_left (List.append_cancel_left
      (List.append_cancel_left h))
    exact List.append_cancel_right h2
  · unfold encodeBytes at h
    rw [utf8_joinSpace_split a1 x a2, utf8_joinSpace_split a1 y a2] at h
    simp only [List.append_assoc] at h
    have h2 := List.append_cancel_left h
    exact utf8Bytes_inj x y (List.append_cancel_right h2)

/-- Witness for C5 (amended) at concrete inputs. -/
theorem encodeBytes_inj_per_coordinate_check :
    ([7] : List Nat) = [7] ∧ ([2, 3] : List Nat) = [2, 3] ∧
    ("-g" : String) = "-g" :=
  ⟨encodeBytes_inj_per_coordinate.1 ["-c"] [[5]] [7] [7] rfl,
    encodeBytes_inj_per_coordinate.2.1 ["-c"] [1] [[0]] [[9]] [2, 3] [2, 3] rfl,
    encodeBytes_inj_per_coordinate.2.2 ["-I"] ["/inc"] [4] [[6]] "-g" "-g" rfl⟩

/-! ## Supporting lemmas for the embed claims -/

theorem foldl_hexLits (content : List Nat) (acc : String) :
    content.foldl (fun a b => a ++ "0x" ++ padStart2 (natToHex b) ++ ",") acc =
      acc ++ hexLits content := by
  induction content generalizing acc with
  | nil =>
    apply String.ext
    simp [hexLits]
  | cons b rest ih =>
    simp only [List.foldl_cons]
    rw [ih]
    apply String.ext
    simp [hexLits, hexByteLit, String.data_append, List.append_assoc]

theorem hexLits_comma (content : List Nat) (last : String) :
    hexLits content ++ last = commaSeparated (content.map hexByteLit ++ [last]) := by
  induction content with
  | nil =>
    apply String.ext
    simp [hexLits, commaSeparated]
  | cons b rest ih =>
    cases rest with
    | nil =>
      apply String.ext
      simp [hexLits, commaSeparated, String.data_append]
    | cons c cs =>
      simp only [hexLits, List.map_cons, List.cons_append, commaSeparated,
        List.append_eq] at ih ⊢
      rw [← ih]
      apply String.ext
      simp [hexLits, String.data_append, List.append_assoc]

set_option maxRecDepth 8192 in
theorem decodeHexLit_hexByteLit : ∀ b, b < 256 → decodeHexLit (hexByteLit b) = some b := by
  decide

/-! ## Claim C7 -/

/-- C7: the C source `embedFile` pipes to the compiler consists of
`size_t P_LENGTH = <n>;` where `n` is the content byte length (not counting
the sentinel), followed by `unsigned char P_DATA[] = ...;` whose initializer
is the comma-separated list of the content bytes in order with exactly one
trailing `0x00` sentinel; the initializer items decode back to the content
bytes followed by the sentinel, and a zero-length content yields `LENGTH = 0`
and the initializer `0x00` (the `content = []` instance of the equation). -/
theorem embedFileSource_spec (content : List Nat) (pfx : String)
    (hb : ∀ b ∈ content, b < 256) :
    embedFileSource content pfx =
      "size_t " ++ pfx ++ "_LENGTH = " ++ toString content.length ++ ";\n\n" ++
      "unsigned char " ++ pfx ++ "_DATA[] = \x7b" ++
      commaSeparated (content.map hexByteLit ++ ["0x00"]) ++ "\x7d;" ∧
    (content.map hexByteLit ++ ["0x00"]).map decodeHexLit =
      (content ++ [0]).map some := by
  constructor
  · unfold embedFileSource dataInitializer
    rw [foldl_hexLits, ← hexLits_comma]
    apply String.ext
    simp [String.data_append, List.append_assoc]
  · rw [List.map_append, List.map_append, List.map_map]
    congr 1
    exact List.map_congr_left (fun b hbmem => decodeHexLit_hexByteLit b (hb b hbmem))

/-- Witness for C7 at the specification's own example: the three bytes of
`Hi\n` produce `LENGTH = 3` and the initializer `0x48,0x69,0x0a,0x00`. -/
theorem embedFileSource_spec_check :
    embedFileSource [72, 105, 10] "JS_BUNDLE" =
      "size_t JS_BUNDLE_LENGTH = 3;\n\nunsigned char JS_BUNDLE_DATA[] = \x7b0x48,0x69,0x0a,0x00\x7d;" ∧
    ([72, 105, 10].map hexByteLit ++ ["0x00"]).map decodeHexLit =
      ([72, 105, 10] ++ [0]).map some := by
  have h := embedFileSource_spec [72, 105, 10] "JS_BUNDLE" (by decide)
  exact ⟨h.1.trans (by decide), h.2⟩

/-! ## Supporting lemmas for the collection claims -/

theorem jsMapHas_false_not_mem {α : Type} (m : List (String × α)) (k : String)
    (h : jsMapHas m k = false) : k ∉ m.map Prod.fst := by
  intro hmem
  rw [List.mem_map] at hmem
  obtain ⟨e, he, hk⟩ := hmem
  rw [jsMapHas, List.any_eq_false] at h
  exact h e he (by simp [hk])

theorem jsMapSet_keys_of_has {α : Type} (m : List (String × α)) (k : String) (v : α)
    (h : jsMapHas m k = true) :
    (jsMapSet m k v).map Prod.fst = m.map Prod.fst := by
  unfold jsMapSet
  rw [if_pos h, List.map_map]
  apply List.map_congr_left
  intro e _
  by_cases hek : e.1 = k
  · simp [hek]
  · simp [hek]

theorem jsMapSet_keys_of_not_has {α : Type} (m : List (String × α)) (k : String) (v : α)
    (h : jsMapHas m k = false) :
    (jsMapSet m k v).map Prod.fst = m.map Prod.fst ++ [k] := by
  unfold jsMapSet
  rw [if_neg (by simp [h])]
  simp

theorem jsMapGet_set_self {α : Type} (m : List (String × α)) (k : String) (v : α) :
    jsMapGet (jsMapSet m k v) k = some v := by
  induction m with
  | nil => simp [jsMapSet, jsMapHas, jsMapGet]
  | cons e t ih =>
    by_cases hek : e.1 = k
    · have h1 : jsMapHas (e :: t) k = true := by simp [jsMapHas, hek]
      unfold jsMapSet
      rw [if_pos h1]
      simp [jsMapGet, List.map_cons, hek]
    · cases ht : jsMapHas t k with
      | true =>
        have h1 : jsMapHas (e :: t) k = true := by
          simp only [jsMapHas, List.any_cons, Bool.or_eq_true]
          exact Or.inr ht
        unfold jsMapSet at ih ⊢
        rw [if_pos h1]
        rw [if_pos ht] at ih
        simp only [List.map_cons, if_neg hek]
        unfold jsMapGet at ih ⊢
        rw [List.find?_cons_of_neg _ (by simp [hek])]
        exact ih
      | false =>
        have h1 : jsMapHas (e :: t) k = false := by
          simp only [jsMapHas, List.any_cons, Bool.or_eq_false_iff]
          exact ⟨by simp [hek], ht⟩
        unfold jsMapSet at ih ⊢
        rw [if_neg (by simp [h1])]
        rw [if_neg (by simp [ht])] at ih
        unfold jsMapGet at ih ⊢
        rw [List.cons_append, List.find?_cons_of_neg _ (by simp [hek])]
        exact ih

theorem pcSet_nodup (ps : PackageCollection) (pkg : TrackedPackage)
    (h : (ps.map Prod.fst).Nodup) :
    ((pcSet ps pkg).map Prod.fst).Nodup := by
  unfold pcSet
  by_cases hk : jsMapHas ps pkg.packageJSON.name = true
  · rw [jsMapSet_keys_of_has _ _ _ hk]
    exact h
  · rw [jsMapSet_keys_of_not_has _ _ _ (by simpa using hk)]
    rw [List.nodup_append]
    exact ⟨h, List.nodup_singleton _, by
      simp only [List.disjoint_singleton]
      exact jsMapHas_false_not_mem _ _ (by simpa using hk)⟩

/-! ## Claim C10 -/

/-- C10: `PackageCollection` iterates in first-insertion order of names:
starting from the empty collection, any sequence of `set` operations keeps
the name keys pairwise distinct (each name maps to exactly one record);
`set` on a name already present replaces the stored record (the name then
maps to the new record — in particular a re-registration as native) without
changing the key sequence, hence without changing that name's position; and
`set` on a fresh name appends it at the end. -/
theorem packageCollection_set_spec :
    (∀ ops : List TrackedPackage,
      ((ops.foldl pcSet ([] : PackageCollection)).map Prod.fst).Nodup) ∧
    (∀ (ps : PackageCollection) (pkg : TrackedPackage),
      pcHas ps pkg.packageJSON.name = true →
        (pcSet ps pkg).map Prod.fst = ps.map Prod.fst ∧
        pcGet (pcSet ps pkg) pkg.packageJSON.name = some pkg) ∧
    (∀ (ps : PackageCollection) (pkg : TrackedPackage),
      pcHas ps pkg.packageJSON.name = false →
        (pcSet ps pkg).map Prod.fst = ps.map Prod.fst ++ [pkg.packageJSON.name] ∧
        pcGet (pcSet ps pkg) pkg.packageJSON.name = some pkg) := by
  refine ⟨fun ops => ?_, fun ps pkg h => ?_, fun ps pkg h => ?_⟩
  · have general : ∀ ps : PackageCollection, (ps.map Prod.fst).Nodup →
        ((ops.foldl pcSet ps).map Prod.fst).Nodup := by
      induction ops with
      | nil => exact fun ps h => h
      | cons p rest ih =>
        intro ps h
        exact ih _ (pcSet_nodup ps p h)
    exact general [] (by simp)
  · exact ⟨jsMapSet_keys_of_has _ _ _ h, jsMapGet_set_self _ _ _⟩
  · exact ⟨jsMapSet_keys_of_not_has _ _ _ h, jsMapGet_set_self _ _ _⟩

/-- Witness for C10: replacing the record of an already-present name keeps
the key sequence, and a fresh name is appended. -/
theorem packageCollection_set_spec_check :
    (pcSet [("a", ⟨⟨"a", none, none, false⟩, [], none, false⟩)]
        ⟨⟨"a", none, none, false⟩, ["x"], none, true⟩).map Prod.fst = ["a"] ∧
    pcGet (pcSet [("a", ⟨⟨"a", none, none, false⟩, [], none, false⟩)]
        ⟨⟨"a", none, none, false⟩, ["x"], none, true⟩) "a" =
      some ⟨⟨"a", none, none, false⟩, ["x"], none, true⟩ ∧
    (pcSet [("a", ⟨⟨"a", none, none, false⟩, [], none, false⟩)]
        ⟨⟨"b", none, none, false⟩, [], none, false⟩).map Prod.fst = ["a", "b"] := by
  have h1 := packageCollection_set_spec.2.1
    [("a", ⟨⟨"a", none, none, false⟩, [], none, false⟩)]
    ⟨⟨"a", none, none, false⟩, ["x"], none, true⟩ (by decide)
  have h2 := packageCollection_set_spec.2.2
    [("a", ⟨⟨"a", none, none, false⟩, [], none, false⟩)]
    ⟨⟨"b", none, none, false⟩, [], none, false⟩ (by decide)
  exact ⟨h1.1, h1.2, h2.1⟩

/-! ## Claim C6 -/

/-- C6 counterexample: a root package whose manifest lists a dependency
(`left-pad`) but does not list `@yaje/core` among its direct dependencies.
The dependency directory is unresolvable (`resolvePackageDir` fails
everywhere), yet `checkPackageJSON` succeeds and never visits the
dependency, contradicting the claim that every dependency name is resolved
(failing when resolution fails). -/
theorem checkPackageJSON_no_core_skips_deps :
    resolvePackageDir
        ⟨fun d => if d = [] then some ⟨"app", none, some [("left-pad", "^1")], false⟩
            else none,
          fun _ => none, fun _ => false⟩ "left-pad" [] [] = none ∧
    checkPackageJSON
        ⟨fun d => if d = [] then some ⟨"app", none, some [("left-pad", "^1")], false⟩
            else none,
          fun _ => none, fun _ => false⟩ 2 [] [] [] =
      .ok ("app",
        [("app", ⟨⟨"app", none, some [("left-pad", "^1")], false⟩, [], none, false⟩)]) := by
  constructor
  · rfl
  · rfl

/-- C6 (amended): after reading and parsing the manifest, `checkPackageJSON`
registers the package, and the stored record carries the
build-configuration instructions exactly when the build script produced
some — regardless of any `@yaje/core` dependency, so such a package does
contribute native code (fourth conjunct). When `@yaje/core` is not among
the manifest's direct dependencies the call returns the package name
immediately after registration, resolving and visiting no dependency
(first conjunct). When it is, the dependency names are walked in order,
already-tracked names are skipped and each untracked name is resolved and
recursed into (second conjunct); if an untracked name cannot be resolved
the walk fails with the resolution error (third conjunct). -/
theorem checkPackageJSON_spec :
    (∀ (env : DiscoveryEnv) (fuel : Nat) (root dir : List String)
        (packages : PackageCollection) (json : PackageJSON),
      env.manifest dir = some json → hasCoreDep json = false →
      checkPackageJSON env (fuel + 1) root dir packages =
        .ok (json.name, registerPackage env dir json packages)) ∧
    (∀ (env : DiscoveryEnv) (fuel : Nat) (root dir : List String)
        (packages : PackageCollection) (json : PackageJSON),
      env.manifest dir = some json → hasCoreDep json = true →
      checkPackageJSON env (fuel + 1) root dir packages =
        (processDeps env root dir (fun d ps => checkPackageJSON env fuel root d ps)
            (depNames json) (registerPackage env dir json packages)).map
          (fun ps => (json.name, ps))) ∧
    (∀ (env : DiscoveryEnv) (root dir : List String)
        (recurse : List String → PackageCollection →
          Except String (String × PackageCollection))
        (pre : List String) (d : String) (rest : List String)
        (ps ps1 : PackageCollection),
      processDeps env root dir recurse pre ps = .ok ps1 →
      pcHas ps1 d = false →
      resolvePackageDir env d root dir = none →
      processDeps env root dir recurse (pre ++ d :: rest) ps =
        .error ("Could not locate package " ++ d)) ∧
    (∀ (env : DiscoveryEnv) (dir : List String) (json : PackageJSON)
        (packages : PackageCollection),
      pcGet (registerPackage env dir json packages) json.name =
        some ⟨json, dir, env.buildInstructions dir, json.bundler⟩) := by
  refine ⟨fun env fuel root dir packages json hm hc => ?_,
    fun env fuel root dir packages json hm hc => ?_,
    fun env root dir recurse pre d rest ps ps1 hpre hd hr => ?_,
    fun env dir json packages => ?_⟩
  · simp [checkPackageJSON, hm, hc]
  · simp only [checkPackageJSON, hm, hc, if_true]
    cases hp : processDeps env root dir
        (fun d ps => checkPackageJSON env fuel root d ps)
        (depNames json) (registerPackage env dir json packages) <;>
      simp [Except.map, hp]
  · induction pre generalizing ps with
    | nil =>
      simp only [processDeps, Except.ok.injEq] at hpre
      subst hpre
      simp only [List.nil_append, processDeps]
      rw [if_neg (by simp [hd]), hr]
    | cons n pre ih =>
      simp only [processDeps] at hpre
      by_cases hn : pcHas ps n = true
      · rw [if_pos hn] at hpre
        simp only [List.cons_append, processDeps]
        rw [if_pos hn]
        exact ih ps hpre
      · rw [if_neg hn] at hpre
        simp only [List.cons_append, processDeps]
        rw [if_neg hn]
        cases hres : resolvePackageDir env n root dir with
        | none =>
          simp only [hres] at hpre
          exact absurd hpre (by simp)
        | some depDir =>
          simp only [hres] at hpre
          cases hrec : recurse depDir ps with
          | error e =>
            simp only [hrec] at hpre
            exact absurd hpre (by simp)
          | ok pair =>
            obtain ⟨nm, ps2⟩ := pair
            simp only [hrec] at hpre
            simp only [hrec]
            exact ih ps2 hpre
  · unfold registerPackage
    cases hb : env.buildInstructions dir with
    | some instructions =>
      simp only [hb]
      exact jsMapGet_set_self _ _ _
    | none =>
      simp only [hb]
      exact jsMapGet_set_self _ _ _

/-- Witness for C6 (amended) at concrete environments: a package without a
direct `@yaje/core` dependency registers and returns immediately, and a
registered package's record carries the produced build instructions. -/
theorem checkPackageJSON_spec_check :
    checkPackageJSON
        ⟨fun d => if d = [] then some ⟨"app2", none, some [("lodash", "^4")], false⟩
            else none,
          fun _ => none, fun _ => false⟩ 2 [] [] [] =
      .ok ("app2",
        [("app2", ⟨⟨"app2", none, some [("lodash", "^4")], false⟩, [], none, false⟩)]) ∧
    pcGet
        (registerPackage
          ⟨fun _ => some ⟨"native-pkg", none, none, false⟩,
            fun _ => some ⟨"native-pkg", [], [], [], [], [], [], []⟩, fun _ => false⟩
          [] ⟨"native-pkg", none, none, false⟩ []) "native-pkg" =
      some ⟨⟨"native-pkg", none, none, false⟩, [],
        some ⟨"native-pkg", [], [], [], [], [], [], []⟩, false⟩ :=
  ⟨checkPackageJSON_spec.1
      ⟨fun d => if d = [] then some ⟨"app2", none, some [("lodash", "^4")], false⟩
          else none,
        fun _ => none, fun _ => false⟩ 1 [] [] []
      ⟨"app2", none, some [("lodash", "^4")], false⟩ rfl rfl,
    checkPackageJSON_spec.2.2.2
      ⟨fun _ => some ⟨"native-pkg", none, none, false⟩,
        fun _ => some ⟨"native-pkg", [], [], [], [], [], [], []⟩, fun _ => false⟩
      [] ⟨"native-pkg", none, none, false⟩ []⟩

end YAJE
